import Mathlib

/-!
# commitgpt: the interactive command runner of `services/CommandsService.go`

A shallow embedding of `executeCommand`, `Interactive`, `Auth` and `Version`,
together with the parts of Go's `strings` package they call.

* A Go `string` is a sequence of bytes: `GoString := List Nat`, one number per byte.
* The parts of the Go library that decode UTF-8 or consult Unicode tables are
  taken as parameters (`Unicode`); the byte-level code paths are written out.
* Everything outside the process (terminal, browser, remote service, shell, file
  system) is a field of `Env`, a function on an abstract world `W`; every call is
  recorded in a trace of `Event`s.
-/

namespace CommitGPT

/-! ## Go strings -/

/-- A Go string: its bytes, in order. -/
abbrev GoString := List Nat

/-- The bytes of a string constant all of whose characters are ASCII. -/
def ascii (s : String) : GoString := s.toList.map Char.toNat

/-- The pieces of Go's `strings`/`unicode` packages that work on runes rather than on
bytes.  The program only reaches them on non-ASCII input or with an empty separator;
they are left unspecified. -/
structure Unicode where
  /-- The unexported `strings.explode(s, n)`: split into UTF-8 sequences. -/
  explode : GoString → Int → List GoString
  /-- The function `utf8.RuneCountInString`. -/
  RuneCountInString : GoString → Nat
  /-- The width returned by `utf8.DecodeRuneInString`. -/
  DecodeRuneWidth : GoString → Nat
  /-- The call `strings.Map(unicode.ToLower, s)`. -/
  MapToLower : GoString → GoString
  /-- The call `strings.TrimFunc(s, unicode.IsSpace)`. -/
  TrimFuncIsSpace : GoString → GoString
  /-- The call `strings.TrimRightFunc(s, unicode.IsSpace)`. -/
  TrimRightFuncIsSpace : GoString → GoString

/-- Go `strings.HasPrefix`: `len(s) >= len(p) && s[:len(p)] == p`. -/
def HasPrefix (s p : GoString) : Bool :=
  decide (p.length ≤ s.length) && (s.take p.length == p)

/-- Left-to-right search behind `strings.Index`; `i` is the offset of `s` in the
string searched. -/
def indexFrom (substr : GoString) : GoString → Nat → Int
  | [], i => if substr = [] then (i : Int) else -1
  | c :: s, i => if HasPrefix (c :: s) substr then (i : Int) else indexFrom substr s (i + 1)

/-- Go `strings.Index`: the index of the first instance of `substr` in `s`, or `-1`. -/
def Index (s substr : GoString) : Int := indexFrom substr s 0

/-- The `for` loop of `strings.Count` (separator of two bytes or more): count, drop the
text up to the end of the match, repeat.  Every round but the last shortens `s`, so
`len(s) + 1` rounds of fuel are enough (`countLoop_fuel`). -/
def countLoop (substr : GoString) : Nat → GoString → Nat → Nat
  | 0, _, n => n
  | fuel + 1, s, n =>
    let i := Index s substr
    if i = -1 then n
    else countLoop substr fuel (s.drop (i.toNat + substr.length)) (n + 1)

/-- Go `strings.Count`: the number of non-overlapping instances of `substr` in `s`. -/
def Count (u : Unicode) (s substr : GoString) : Nat :=
  if substr.length = 0 then u.RuneCountInString s + 1
  else if substr.length = 1 then s.count (substr.headD 0)
  else countLoop substr (s.length + 1) s 0

/-- The loop of `strings.genSplit`, with `k = n - 1 - i` rounds left: returns the
filled part `a[:i+1]` of the result from index `i` on. -/
def genSplitLoop (sep : GoString) (sepSave : Nat) : Nat → GoString → List GoString
  | 0, s => [s]
  | k + 1, s =>
    let m := Index s sep
    if m < 0 then [s]
    else s.take (m.toNat + sepSave) :: genSplitLoop sep sepSave k (s.drop (m.toNat + sep.length))

/-- Go `strings.genSplit(s, sep, sepSave, n)`. -/
def genSplit (u : Unicode) (s sep : GoString) (sepSave : Nat) (n : Int) : List GoString :=
  if n = 0 then []
  else if sep = [] then u.explode s n
  else
    let n1 : Int := if n < 0 then (Count u s sep : Int) + 1 else n
    let n2 : Int := if n1 > (s.length : Int) + 1 then (s.length : Int) + 1 else n1
    genSplitLoop sep sepSave (n2 - 1).toNat s

/-- Go `strings.Split(s, sep)`, which is `genSplit(s, sep, 0, -1)`. -/
def Split (u : Unicode) (s sep : GoString) : List GoString := genSplit u s sep 0 (-1)

/-- Go `strings.Join(elems, sep)`. -/
def Join : List GoString → GoString → GoString
  | [], _ => []
  | e :: es, sep => es.foldl (fun b s => b ++ sep ++ s) e

/-- The loop of `strings.Replace` with `k = n - i` rounds left; `b` is the builder.
The slice `s[start:j]` is `(s.take j).drop start`. -/
def replaceLoop (u : Unicode) (s old new : GoString) : Nat → Nat → Int → GoString → GoString
  | 0, _, start, b => b ++ s.drop start.toNat
  | k + 1, i, start, b =>
    let j : Int :=
      if old.length = 0 then
        (if i > 0 then start + (u.DecodeRuneWidth (s.drop start.toNat) : Int) else start)
      else start + Index (s.drop start.toNat) old
    replaceLoop u s old new k (i + 1) (j + (old.length : Int))
      (b ++ (s.take j.toNat).drop start.toNat ++ new)

/-- Go `strings.Replace(s, old, new, n)`. -/
def Replace (u : Unicode) (s old new : GoString) (n : Int) : GoString :=
  if old = new ∨ n = 0 then s
  else
    let m := Count u s old
    if m = 0 then s
    else
      let n1 : Int := if n < 0 ∨ (m : Int) < n then (m : Int) else n
      replaceLoop u s old new n1.toNat 0 0 []

/-- Go `strings.ReplaceAll(s, old, new)`, which is `Replace(s, old, new, -1)`. -/
def ReplaceAll (u : Unicode) (s old new : GoString) : GoString := Replace u s old new (-1)

/-- The command separator `" && "` of `Interactive` and `executeCommand`. -/
def sepAnd : GoString := ascii " && "

/-- The newline `"\n"`. -/
def newline : GoString := ascii "\n"

/-- A parameter instance that leaves every rune-level function as the identity or zero;
used to evaluate the model on ASCII inputs. -/
def asciiOnly : Unicode where
  explode := fun s _ => s.map (fun c => [c])
  RuneCountInString := fun s => s.length
  DecodeRuneWidth := fun _ => 1
  MapToLower := fun s => s
  TrimFuncIsSpace := fun s => s
  TrimRightFuncIsSpace := fun s => s

/-- Go `strings.ToLower`: an all-ASCII string is lowered byte by byte (unchanged when it
has no upper-case letter); anything else goes through `Map(unicode.ToLower, s)`. -/
def ToLower (u : Unicode) (s : GoString) : GoString :=
  if s.all (fun c => decide (c < 128)) then
    if s.any (fun c => decide (65 ≤ c ∧ c ≤ 90)) then
      s.map (fun c => if 65 ≤ c ∧ c ≤ 90 then c + 32 else c)
    else s
  else u.MapToLower s

/-- The table `asciiSpace` of package `strings`: tab, newline, vertical tab, form feed,
carriage return and space. -/
def asciiSpace (c : Nat) : Bool :=
  c == 9 || c == 10 || c == 11 || c == 12 || c == 13 || c == 32

/-- First loop of `strings.TrimSpace`: skip ASCII space from the left.  `Sum.inl` is the
early return through `TrimFunc` at a non-ASCII byte, `Sum.inr` is `s[start:]`. -/
def trimSpaceStart (u : Unicode) : GoString → GoString ⊕ GoString
  | [] => Sum.inr []
  | c :: s =>
    if c ≥ 128 then Sum.inl (u.TrimFuncIsSpace (c :: s))
    else if asciiSpace c then trimSpaceStart u s
    else Sum.inr (c :: s)

/-- Second loop of `strings.TrimSpace`, on the reversed rest `s[start:]`: skip ASCII space
from the right, with the early return through `TrimRightFunc` at a non-ASCII byte. -/
def trimSpaceStop (u : Unicode) : GoString → GoString
  | [] => []
  | c :: r =>
    if c ≥ 128 then u.TrimRightFuncIsSpace (c :: r).reverse
    else if asciiSpace c then trimSpaceStop u r
    else (c :: r).reverse

/-- Go `strings.TrimSpace`. -/
def TrimSpace (u : Unicode) (s : GoString) : GoString :=
  match trimSpaceStart u s with
  | Sum.inl t => t
  | Sum.inr t => trimSpaceStop u t.reverse

/-! ## The world outside the process -/

/-- A Go `error` value: one made by `fmt.Errorf` with its message, or one handed over by
a library or service (`E`). -/
inductive GoError (E : Type) where
  | errorf (msg : GoString)
  | other (e : E)
  deriving DecidableEq

/-- Modelled from the spec: the constants of package `models` (`NAME`, `VERSION`,
`DEFAULT_PROMPT`, `CONFIG_FOLDER`, `FILENAME`), declared outside this file; their values
are parameters. -/
structure Models where
  NAME : GoString
  VERSION : GoString
  DEFAULT_PROMPT : GoString
  CONFIG_FOLDER : GoString
  FILENAME : GoString

/-- Modelled from the spec: the `ApiKey` section of `FileConfig`, of which `Auth` sets `Key`. -/
structure ApiKeySection where
  Key : GoString
  deriving DecidableEq

/-- Modelled from the spec: the `Prompt` section of `FileConfig`, of which `Auth` sets `Custom`. -/
structure PromptSection where
  Custom : GoString
  deriving DecidableEq

/-- Modelled from the spec: the record `FileConfig` (declared outside this file) holding
an API key and a custom prompt. -/
structure FileConfig where
  ApiKey : ApiKeySection
  Prompt : PromptSection
  deriving DecidableEq

/-- One observable action of the program. -/
inductive Event where
  | stdout (text : GoString)
  | openURL (url : GoString)
  | readString
  | userCurrent
  | mkdir (path : GoString)
  | saveConfigFile (path : GoString) (cfg : FileConfig)
  | interactivePrompt (args : List GoString)
  | getResponse (prompt : GoString)
  | scan
  | bash (command : GoString)
  deriving DecidableEq

/-- The services the program calls, as functions on the outside world `W`.  A Go
result `(value, err)` is a pair whose second component is `none` for `nil`. -/
structure Env (W E : Type) where
  /-- The call `browser.OpenURL(url)`. -/
  OpenURL : GoString → W → Option (GoError E) × W
  /-- The call `bufio.NewReader(os.Stdin).ReadString(10)`. -/
  ReadString : W → (GoString × Option (GoError E)) × W
  /-- The call `user.Current()`; the value is the field `HomeDir`. -/
  UserCurrent : W → (GoString × Option (GoError E)) × W
  /-- The call `os.Mkdir(path, os.ModePerm)`, whose result is dropped. -/
  Mkdir : GoString → W → W
  /-- The call `SaveConfigFile(filePath, cfgContent)`, whose result is dropped. -/
  SaveConfigFile : GoString → FileConfig → W → W
  /-- The call `c.prompt.InteractivePrompt(args)`. -/
  InteractivePrompt : List GoString → W → (GoString × Option (GoError E)) × W
  /-- The call `c.openAiSvc.GetResponse(prompt)`. -/
  GetResponse : GoString → W → (GoString × Option (GoError E)) × W
  /-- The call `fmt.Scan(&confirm)`; the value is the token read. -/
  Scan : W → (GoString × Option (GoError E)) × W
  /-- The call `exec.Command("bash", "-c", command).Output()`. -/
  Output : GoString → W → (GoString × Option (GoError E)) × W
  /-- The method `Error()` of an error that is not made by `fmt.Errorf`. -/
  ErrorText : E → GoString

/-- The text `err.Error()`. -/
def GoError.text {W E : Type} (env : Env W E) : GoError E → GoString
  | GoError.errorf msg => msg
  | GoError.other e => env.ErrorText e

/-- What a method returning `(string, error)` leaves behind: the two results, the world
after it and the actions it performed, in order. -/
structure Ret (W E : Type) where
  val : GoString
  err : Option (GoError E)
  world : W
  trace : List Event

/-- The same return with `evs` performed before it. -/
def Ret.after {W E : Type} (evs : List Event) (r : Ret W E) : Ret W E :=
  { r with trace := evs ++ r.trace }

/-- The shell commands run, in order. -/
def bashCommands : List Event → List GoString
  | [] => []
  | Event.bash c :: evs => c :: bashCommands evs
  | _ :: evs => bashCommands evs

/-- The argument lists the prompt was built from, in order. -/
def promptCalls : List Event → List (List GoString)
  | [] => []
  | Event.interactivePrompt args :: evs => args :: promptCalls evs
  | _ :: evs => promptCalls evs

/-- The prompts sent to the remote service, in order. -/
def responseCalls : List Event → List GoString
  | [] => []
  | Event.getResponse p :: evs => p :: responseCalls evs
  | _ :: evs => responseCalls evs

/-- The configurations handed to `SaveConfigFile`, with their paths, in order. -/
def savedConfigs : List Event → List (GoString × FileConfig)
  | [] => []
  | Event.saveConfigFile path cfg :: evs => (path, cfg) :: savedConfigs evs
  | _ :: evs => savedConfigs evs

/-! ## `CommandsService.go` -/

/-- The colour code `Reset`. -/
def Reset : GoString := ascii "\x1b[0m"

/-- The colour code `Green`. -/
def Green : GoString := ascii "\x1b[32m"

/-- The `for _, command := range commands` loop of `executeCommand`; `output` is the
variable of that name. -/
def executeLoop {W E : Type} (env : Env W E) : List GoString → GoString → W → Ret W E
  | [], output, w => ⟨output, none, w, []⟩
  | command :: rest, _, w =>
    match env.Output command w with
    | ((_, some err), w1) =>
      ⟨[], some err, w1, [Event.stdout (command ++ newline), Event.bash command]⟩
    | ((out, none), w1) =>
      (executeLoop env rest out w1).after [Event.stdout (command ++ newline), Event.bash command]

/-- The function `executeCommand(cmd)`. -/
def executeCommand {W E : Type} (u : Unicode) (env : Env W E) (cmd : GoString) (w : W) :
    Ret W E :=
  executeLoop env (Split u cmd sepAnd) [] w

/-- The text printed by `Interactive` before it reads the answer. -/
def confirmText (u : Unicode) (result : GoString) : GoString :=
  ascii "Here are the commands to execute: \n\n"
    ++ (Green ++ ReplaceAll u result sepAnd newline ++ Reset)
    ++ ascii "\n\nDo you want to apply it? [y/n/r]: "

/-- The method `Interactive(args)`.  It calls itself on the answer `r`, without bound;
`fuel` bounds the number of rounds and `none` means the bound was reached. -/
def Interactive {W E : Type} (u : Unicode) (env : Env W E) :
    Nat → List GoString → W → Option (Ret W E)
  | 0, _, _ => none
  | fuel + 1, args, w =>
    match env.InteractivePrompt args w with
    | ((_, some err), w1) => some ⟨[], some err, w1, [Event.interactivePrompt args]⟩
    | ((prompt, none), w1) =>
      match env.GetResponse prompt w1 with
      | ((_, some err), w2) =>
        some ⟨[], some err, w2, [Event.interactivePrompt args, Event.getResponse prompt]⟩
      | ((result, none), w2) =>
        match env.Scan w2 with
        | ((_, some err), w3) =>
          some ⟨[], some err, w3,
            [Event.interactivePrompt args, Event.getResponse prompt,
             Event.stdout (confirmText u result), Event.scan]⟩
        | ((confirm, none), w3) =>
          let evs := [Event.interactivePrompt args, Event.getResponse prompt,
            Event.stdout (confirmText u result), Event.scan, Event.stdout newline]
          if ToLower u confirm ≠ ascii "y" ∧ ToLower u confirm ≠ ascii "r" then
            some ⟨[], some (GoError.errorf
              (ascii "Command execution aborted. \x27" ++ confirm ++ ascii "\x27")), w3, evs⟩
          else if ToLower u confirm = ascii "r" then
            (Interactive u env fuel args w3).map (Ret.after evs)
          else
            let r := executeCommand u env result w3
            match r.err with
            | some err => some ⟨[], some err, r.world, evs ++ r.trace⟩
            | none => some ⟨r.val, none, r.world, evs ++ r.trace⟩

/-- The method `Version()`. -/
def Version {W E : Type} (m : Models) (w : W) : Ret W E :=
  ⟨m.NAME ++ ascii " version " ++ m.VERSION, none, w, []⟩

/-- The method `Auth()`. -/
def Auth {W E : Type} (u : Unicode) (m : Models) (env : Env W E) (w : W) : Ret W E :=
  let url := ascii "https://platform.openai.com/api-keys"
  match env.OpenURL url w with
  | (some err, w1) => ⟨[], some err, w1, [Event.openURL url]⟩
  | (none, w1) =>
    let ev1 := [Event.openURL url,
      Event.stdout (ascii "Your browser has been opened to visit: " ++ newline),
      Event.stdout (ascii "  " ++ url ++ ascii "\n\n"),
      Event.stdout (ascii "Paste your API Key here: "),
      Event.readString]
    match env.ReadString w1 with
    | ((_, some err), w2) =>
      ⟨[], some err, w2, ev1 ++ [Event.stdout
        (ascii "An error occurred while reading input. Please try again" ++ ascii " "
          ++ err.text env ++ newline)]⟩
    | ((inputApiKey0, none), w2) =>
      let inputApiKey := TrimSpace u inputApiKey0
      let ev2 := ev1 ++ [Event.stdout
        (ascii "Do you like to add a custom prompt? (Leave blank to default) "),
        Event.readString]
      match env.ReadString w2 with
      | ((_, some err), w3) =>
        ⟨[], some err, w3, ev2 ++ [Event.stdout
          (ascii "An error occurred while reading input. Please try again" ++ ascii " "
            ++ err.text env ++ newline)]⟩
      | ((inputPrompt0, none), w3) =>
        let inputPrompt1 := TrimSpace u inputPrompt0
        let inputPrompt :=
          if inputPrompt1.length = 0 then m.DEFAULT_PROMPT
          else inputPrompt1 ++ ascii ", " ++ m.DEFAULT_PROMPT
        match env.UserCurrent w3 with
        | ((_, some _), w4) =>
          ⟨[], some (GoError.errorf (ascii "Error getting current user")), w4,
            ev2 ++ [Event.userCurrent]⟩
        | ((homeDir, none), w4) =>
          let w5 := env.Mkdir (homeDir ++ m.CONFIG_FOLDER) w4
          let filePath := homeDir ++ m.CONFIG_FOLDER ++ m.FILENAME
          let cfgContent : FileConfig := ⟨⟨inputApiKey⟩, ⟨inputPrompt⟩⟩
          let w6 := env.SaveConfigFile filePath cfgContent w5
          ⟨ascii "done", none, w6,
            ev2 ++ [Event.userCurrent, Event.mkdir (homeDir ++ m.CONFIG_FOLDER),
              Event.saveConfigFile filePath cfgContent]⟩

/-! ## Vocabulary of the specification -/

/-- The world reached from `w` once the commands `cmds` have been run one after the
other. -/
def worldAfter {W E : Type} (env : Env W E) (cmds : List GoString) (w : W) : W :=
  cmds.foldl (fun w c => (env.Output c w).2) w

/-- The output and error of the `j`-th command of `cmds` when the commands are run in
order from `w`: it runs in the world left by the commands before it. -/
def outputAt {W E : Type} (env : Env W E) (cmds : List GoString) (w : W) (j : Nat) :
    GoString × Option (GoError E) :=
  (env.Output (cmds.getD j []) (worldAfter env (cmds.take j) w)).1

/-- The world after `k` rounds of `Interactive` in each of which the prompt is built, the
remote service answers, and the user's answer lower-cases to `r`; `none` when the first
`k` rounds are not of that kind. -/
def afterRetries {W E : Type} (u : Unicode) (env : Env W E) (args : List GoString) :
    Nat → W → Option W
  | 0, w => some w
  | k + 1, w =>
    match env.InteractivePrompt args w with
    | ((_, some _), _) => none
    | ((prompt, none), w1) =>
      match env.GetResponse prompt w1 with
      | ((_, some _), _) => none
      | ((_, none), w2) =>
        match env.Scan w2 with
        | ((_, some _), _) => none
        | ((confirm, none), w3) =>
          if ToLower u confirm = ascii "r" then afterRetries u env args k w3 else none

/-! ## A scripted world

A concrete `Env` on which the statements below are evaluated: the answers of the user
and of the remote service are read off lists, and the shell echoes every command except
`false`, which fails. -/

/-- The state of the scripted world. -/
structure Script where
  /-- The diffs the prompt builder will find, one per call; it fails when none is left. -/
  diffs : List GoString
  /-- The responses of the remote service still to come. -/
  responses : List GoString
  /-- The tokens still to be read by `fmt.Scan`. -/
  tokens : List GoString
  /-- The lines still to be read by `ReadString`. -/
  lines : List GoString

/-- The scripted services; the errors are numbered. -/
def scripted : Env Script Nat where
  OpenURL := fun _ w => (none, w)
  ReadString := fun w =>
    match w.lines with
    | [] => (([], some (GoError.other 0)), w)
    | l :: ls => ((l, none), { w with lines := ls })
  UserCurrent := fun w => ((ascii "/home/dev", none), w)
  Mkdir := fun _ w => w
  SaveConfigFile := fun _ _ w => w
  InteractivePrompt := fun args w =>
    match w.diffs with
    | [] => (([], some (GoError.other 1)), w)
    | d :: ds => ((d ++ Join args (ascii " "), none), { w with diffs := ds })
  GetResponse := fun _ w =>
    match w.responses with
    | [] => (([], some (GoError.other 2)), w)
    | r :: rs => ((r, none), { w with responses := rs })
  Scan := fun w =>
    match w.tokens with
    | [] => (([], some (GoError.other 0)), w)
    | t :: ts => ((t, none), { w with tokens := ts })
  Output := fun c w =>
    if c = ascii "false" then (([], some (GoError.other 3)), w) else ((c ++ newline, none), w)
  ErrorText := fun _ => ascii "EOF"

/-- Constants for the scripted world. -/
def demoModels : Models where
  NAME := ascii "commitgpt"
  VERSION := ascii "1.0.0"
  DEFAULT_PROMPT := ascii "write a commit message"
  CONFIG_FOLDER := ascii "/.config/commitgpt"
  FILENAME := ascii "/config.toml"

/-- A scripted world: `n` diffs, the given responses and answers, no input line. -/
def demoWorld (n : Nat) (responses tokens : List GoString) : Script where
  diffs := List.replicate n (ascii "+fix ")
  responses := responses
  tokens := tokens
  lines := []

/-- A scripted world with the given input lines and nothing else. -/
def authWorld (lines : List GoString) : Script where
  diffs := []
  responses := []
  tokens := []
  lines := lines

/-- A first response of the remote service. -/
def demoFirst : GoString := ascii "git add . && git commit -m wip"

/-- A second response of the remote service. -/
def demoSecond : GoString := ascii "git add -A && git commit -m fix"

/-! ## Facts about the string functions -/

theorem HasPrefix_length {s p : GoString} (h : HasPrefix s p = true) : p.length ≤ s.length := by
  unfold HasPrefix at h
  simp only [Bool.and_eq_true, decide_eq_true_eq] at h
  exact h.1

theorem indexFrom_cases (substr : GoString) (hsub : substr ≠ []) :
    ∀ (s : GoString) (i : Nat), indexFrom substr s i = -1 ∨
      ((i : Int) ≤ indexFrom substr s i ∧
        (indexFrom substr s i).toNat + substr.length ≤ i + s.length) := by
  intro s
  induction s with
  | nil => intro i; left; simp [indexFrom, hsub]
  | cons c s ih =>
    intro i
    unfold indexFrom
    by_cases hp : HasPrefix (c :: s) substr = true
    · right
      rw [if_pos hp]
      have := HasPrefix_length hp
      refine ⟨le_refl _, ?_⟩
      simp only [Int.toNat_ofNat]
      omega
    · rw [if_neg hp]
      rcases ih (i + 1) with h | ⟨h1, h2⟩
      · left; exact h
      · right
        refine ⟨by push_cast at h1; omega, ?_⟩
        simp only [List.length_cons]
        omega

/-- A search for a non-empty text fails with `-1`, or finds a match that lies inside `s`. -/
theorem Index_cases (s substr : GoString) (hsub : substr ≠ []) :
    Index s substr = -1 ∨
      (0 ≤ Index s substr ∧ (Index s substr).toNat + substr.length ≤ s.length) := by
  rcases indexFrom_cases substr hsub s 0 with h | ⟨h1, h2⟩
  · left; exact h
  · right
    refine ⟨by simpa using h1, ?_⟩
    simpa [Index] using h2

theorem countLoop_acc (substr : GoString) :
    ∀ (fuel : Nat) (s : GoString) (n : Nat),
      countLoop substr fuel s n = n + countLoop substr fuel s 0 := by
  intro fuel
  induction fuel with
  | zero => intro s n; simp [countLoop]
  | succ f ih =>
    intro s n
    simp only [countLoop]
    by_cases h : Index s substr = -1
    · simp [h]
    · simp only [h, if_false]
      rw [ih _ (n + 1), ih _ (0 + 1)]
      omega

/-- Matches do not overlap: there are at most `len(s)` of them. -/
theorem countLoop_le (substr : GoString) (hsub : substr ≠ []) :
    ∀ (fuel : Nat) (s : GoString), countLoop substr fuel s 0 ≤ s.length := by
  intro fuel
  induction fuel with
  | zero => intro s; simp [countLoop]
  | succ f ih =>
    intro s
    simp only [countLoop]
    by_cases h : Index s substr = -1
    · simp [h]
    · simp only [h, if_false]
      rw [countLoop_acc]
      have hlen : 0 < substr.length := List.length_pos.mpr hsub
      rcases Index_cases s substr hsub with h1 | ⟨_, h2⟩
      · exact absurd h1 h
      · have := ih (s.drop ((Index s substr).toNat + substr.length))
        simp only [List.length_drop] at this
        omega

/-- The fuel `len(s) + 1` given to the loop of `Count` is never used up: more fuel
changes nothing. -/
theorem countLoop_fuel (substr : GoString) (hsub : substr ≠ []) :
    ∀ (fuel : Nat) (s : GoString) (n : Nat), s.length < fuel →
      countLoop substr fuel s n = countLoop substr (s.length + 1) s n := by
  intro fuel
  induction fuel using Nat.strong_induction_on with
  | _ fuel ih =>
    intro s n hlt
    obtain ⟨f, rfl⟩ : ∃ f, fuel = f + 1 := ⟨fuel - 1, by omega⟩
    simp only [countLoop]
    by_cases h : Index s substr = -1
    · simp [h]
    · simp only [h, if_false]
      have hlen : 0 < substr.length := List.length_pos.mpr hsub
      rcases Index_cases s substr hsub with h1 | ⟨_, h2⟩
      · exact absurd h1 h
      · have hd : (s.drop ((Index s substr).toNat + substr.length)).length < s.length := by
          simp only [List.length_drop]; omega
        by_cases hf : f = s.length
        · rw [hf]
        · rw [ih f (by omega) _ _ (by omega), ih s.length (by omega) _ _ hd]

theorem genSplitLoop_ne_nil (sep : GoString) (sepSave k : Nat) (s : GoString) :
    genSplitLoop sep sepSave k s ≠ [] := by
  cases k with
  | zero => simp [genSplitLoop]
  | succ k =>
    simp only [genSplitLoop]
    split <;> simp

theorem Join_cons_cons (x y : GoString) (ys : List GoString) (sep : GoString) :
    Join (x :: y :: ys) sep = x ++ sep ++ Join (y :: ys) sep := by
  simp only [Join, List.foldl_cons]
  generalize y = a
  induction ys generalizing a with
  | nil => simp
  | cons z zs ih =>
    simp only [List.foldl_cons]
    rw [← ih (a ++ sep ++ z)]
    simp only [List.append_assoc]

/-- The three loops walk the same matches: with as many rounds as `Count` found, the
builder of `Replace` holds the pieces of `genSplit` joined by the new text. -/
theorem replaceLoop_eq_Join (u : Unicode) (sep new : GoString) (hsep : sep ≠ []) :
    ∀ (fuel : Nat) (s : GoString) (i start : Nat) (b : GoString),
      (s.drop start).length < fuel →
      replaceLoop u s sep new (countLoop sep fuel (s.drop start) 0) i (start : Int) b
        = b ++ Join (genSplitLoop sep 0 (countLoop sep fuel (s.drop start) 0) (s.drop start)) new := by
  intro fuel
  induction fuel with
  | zero => intro s i start b h; omega
  | succ f ih =>
    intro s i start b hlt
    have hlen : 0 < sep.length := List.length_pos.mpr hsep
    simp only [countLoop]
    by_cases h : Index (s.drop start) sep = -1
    · simp [h, replaceLoop, genSplitLoop, Join]
    · simp only [h, if_false]
      rcases Index_cases (s.drop start) sep hsep with h1 | ⟨h0, h2⟩
      · exact absurd h1 h
      · obtain ⟨m, hm⟩ : ∃ m : Nat, Index (s.drop start) sep = (m : Int) :=
          ⟨(Index (s.drop start) sep).toNat, (Int.toNat_of_nonneg h0).symm⟩
        rw [hm] at h2 ⊢
        simp only [Int.toNat_ofNat] at h2 ⊢
        have hdrop : List.drop (m + sep.length) (List.drop start s)
            = List.drop (start + m + sep.length) s := by
          rw [List.drop_drop]; congr 1; omega
        rw [countLoop_acc, hdrop]
        have hlt2 : (List.drop (start + m + sep.length) s).length < f := by
          rw [← hdrop]; simp only [List.length_drop] at hlt h2 ⊢; omega
        have hstep := ih s (i + 1) (start + m + sep.length)
          (b ++ (s.take (start + m)).drop start ++ new) hlt2
        have e1 : (0 + 1 + countLoop sep f (List.drop (start + m + sep.length) s) 0)
            = (countLoop sep f (List.drop (start + m + sep.length) s) 0) + 1 := by omega
        rw [e1]
        simp only [replaceLoop, genSplitLoop, hm]
        have hne : ¬ sep.length = 0 := by omega
        have hnn : ¬ ((m : Int) < 0) := by omega
        simp only [hne, hnn, if_false, Int.toNat_ofNat, hdrop, Nat.add_zero]
        have e2 : ((start : Int) + (m : Int) + (sep.length : Int))
            = ((start + m + sep.length : Nat) : Int) := by push_cast; rfl
        have e3 : ((start : Int) + (m : Int)).toNat = start + m := by
          rw [← Int.ofNat_add]; exact Int.toNat_ofNat _
        rw [hm, e2, e3, hstep]
        obtain ⟨y, ys, hy⟩ : ∃ y ys, genSplitLoop sep 0
            (countLoop sep f (List.drop (start + m + sep.length) s) 0)
            (List.drop (start + m + sep.length) s) = y :: ys := by
          cases hg : genSplitLoop sep 0
            (countLoop sep f (List.drop (start + m + sep.length) s) 0)
            (List.drop (start + m + sep.length) s) with
          | nil => exact absurd hg (genSplitLoop_ne_nil _ _ _ _)
          | cons y ys => exact ⟨y, ys, rfl⟩
        rw [hy, Join_cons_cons]
        have e4 : List.drop start (List.take (start + m) s) = List.take m (List.drop start s) := by
          rw [List.take_drop]
        rw [e4]
        simp only [List.append_assoc]

/-- For a separator of two bytes or more, `ReplaceAll(s, sep, new)` is
`Join(Split(s, sep), new)`. -/
theorem ReplaceAll_eq_Join_Split (u : Unicode) (s sep new : GoString)
    (hsep : 2 ≤ sep.length) (hnew : sep ≠ new) :
    ReplaceAll u s sep new = Join (Split u s sep) new := by
  have hne : sep ≠ [] := by intro h; rw [h] at hsep; simp at hsep
  have h0 : ¬ sep.length = 0 := by omega
  have h1 : ¬ sep.length = 1 := by omega
  have hle := countLoop_le sep hne (s.length + 1) s
  have key := replaceLoop_eq_Join u sep new hne (s.length + 1) s 0 0 [] (by simp)
  simp only [List.drop_zero, List.nil_append, Nat.cast_zero] at key
  unfold ReplaceAll Replace Split genSplit Count
  simp only [h0, h1, hne, hnew, if_false, false_or]
  have hneg : ((-1 : Int) < 0) := by decide
  have hnz : ¬ ((-1 : Int) = 0) := by decide
  simp only [hneg, hnz, if_true, if_false, true_or]
  have hclamp : ¬ (((countLoop sep (s.length + 1) s 0 : Nat) : Int) + 1 > (s.length : Int) + 1) := by
    omega
  simp only [hclamp, if_false, Int.add_sub_cancel, Int.toNat_ofNat]
  by_cases hz : countLoop sep (s.length + 1) s 0 = 0
  · simp [hz, genSplitLoop, Join]
  · simp only [hz, if_false]
    exact key

/-- `Split` with a non-empty separator returns at least one piece. -/
theorem Split_ne_nil (u : Unicode) (s sep : GoString) (hsep : sep ≠ []) :
    Split u s sep ≠ [] := by
  unfold Split genSplit
  have hnz : ¬ ((-1 : Int) = 0) := by decide
  simp only [hnz, hsep, if_false]
  exact genSplitLoop_ne_nil _ _ _ _

/-- The empty string splits into the single empty piece. -/
theorem Split_nil (u : Unicode) (sep : GoString) (hsep : sep ≠ []) :
    Split u [] sep = [[]] := by
  have hI : Index [] sep = -1 := by simp [Index, indexFrom, hsep]
  have hg : ∀ k, genSplitLoop sep 0 k [] = [[]] := by
    intro k
    cases k with
    | zero => rfl
    | succ k => simp [genSplitLoop, hI]
  unfold Split genSplit
  have hnz : ¬ ((-1 : Int) = 0) := by decide
  simp only [hnz, hsep, if_false]
  exact hg _

/-- A string without the separator splits into itself alone. -/
theorem Split_of_Index_neg (u : Unicode) (s sep : GoString) (hsep : sep ≠ [])
    (h : Index s sep = -1) : Split u s sep = [s] := by
  have hg : ∀ k, genSplitLoop sep 0 k s = [s] := by
    intro k
    cases k with
    | zero => rfl
    | succ k => simp [genSplitLoop, h]
  unfold Split genSplit
  have hnz : ¬ ((-1 : Int) = 0) := by decide
  simp only [hnz, hsep, if_false]
  exact hg _

theorem sepAnd_eq : sepAnd = [32, 38, 38, 32] := by decide

theorem sepAnd_ne_nil : sepAnd ≠ [] := by decide

theorem trimSpaceStart_ascii (u : Unicode) :
    ∀ s : GoString, (∀ c ∈ s, c < 128) →
      trimSpaceStart u s = Sum.inr (s.dropWhile asciiSpace) := by
  intro s
  induction s with
  | nil => intro _; rfl
  | cons c s ih =>
    intro h
    have hc : ¬ c ≥ 128 := by have := h c (by simp); omega
    have hs : ∀ d ∈ s, d < 128 := fun d hd => h d (by simp [hd])
    simp only [trimSpaceStart, hc, if_false, List.dropWhile_cons]
    by_cases hsp : asciiSpace c = true
    · simp only [hsp, if_true]; exact ih hs
    · simp only [hsp, if_false]; simp

theorem trimSpaceStop_ascii (u : Unicode) :
    ∀ r : GoString, (∀ c ∈ r, c < 128) →
      trimSpaceStop u r = (r.dropWhile asciiSpace).reverse := by
  intro r
  induction r with
  | nil => intro _; rfl
  | cons c r ih =>
    intro h
    have hc : ¬ c ≥ 128 := by have := h c (by simp); omega
    have hs : ∀ d ∈ r, d < 128 := fun d hd => h d (by simp [hd])
    simp only [trimSpaceStop, hc, if_false, List.dropWhile_cons]
    by_cases hsp : asciiSpace c = true
    · simp only [hsp, if_true]; exact ih hs
    · simp only [hsp, if_false]; simp

/-- On an all-ASCII string `TrimSpace` removes the white space at both ends and nothing
else. -/
theorem TrimSpace_ascii (u : Unicode) (s : GoString) (h : ∀ c ∈ s, c < 128) :
    TrimSpace u s = ((s.dropWhile asciiSpace).reverse.dropWhile asciiSpace).reverse := by
  unfold TrimSpace
  rw [trimSpaceStart_ascii u s h]
  simp only
  apply trimSpaceStop_ascii
  intro c hc
  rw [List.mem_reverse] at hc
  exact h c ((List.dropWhile_suffix asciiSpace).subset hc)

/-! ## Facts about traces -/

theorem bashCommands_append (a b : List Event) :
    bashCommands (a ++ b) = bashCommands a ++ bashCommands b := by
  induction a with
  | nil => rfl
  | cons e a ih => cases e <;> simp [bashCommands, ih]

theorem promptCalls_append (a b : List Event) :
    promptCalls (a ++ b) = promptCalls a ++ promptCalls b := by
  induction a with
  | nil => rfl
  | cons e a ih => cases e <;> simp [promptCalls, ih]

theorem responseCalls_append (a b : List Event) :
    responseCalls (a ++ b) = responseCalls a ++ responseCalls b := by
  induction a with
  | nil => rfl
  | cons e a ih => cases e <;> simp [responseCalls, ih]

/-! ## Facts about `executeCommand` -/

theorem outputAt_zero {W E : Type} (env : Env W E) (c : GoString) (cs : List GoString) (w : W) :
    outputAt env (c :: cs) w 0 = (env.Output c w).1 := by
  simp [outputAt, worldAfter]

theorem outputAt_succ {W E : Type} (env : Env W E) (c : GoString) (cs : List GoString) (w : W)
    (j : Nat) : outputAt env (c :: cs) w (j + 1) = outputAt env cs (env.Output c w).2 j := by
  simp [outputAt, worldAfter]

/-- When every command succeeds the loop runs all of them and keeps the last output. -/
theorem executeLoop_all_succeed {W E : Type} (env : Env W E) :
    ∀ (cmds : List GoString) (out : GoString) (w : W),
      (∀ j, j < cmds.length → (outputAt env cmds w j).2 = none) →
      (executeLoop env cmds out w).err = none ∧
      bashCommands (executeLoop env cmds out w).trace = cmds ∧
      (executeLoop env cmds out w).world = worldAfter env cmds w ∧
      (executeLoop env cmds out w).val
        = (if cmds = [] then out else (outputAt env cmds w (cmds.length - 1)).1) := by
  intro cmds
  induction cmds with
  | nil => intro out w _; simp [executeLoop, bashCommands, worldAfter]
  | cons c cs ih =>
    intro out w h
    have h0 := h 0 (by simp)
    rw [outputAt_zero] at h0
    rcases hO : env.Output c w with ⟨⟨o, e⟩, w1⟩
    rw [hO] at h0
    simp only at h0
    subst h0
    have hrest : ∀ j, j < cs.length → (outputAt env cs w1 j).2 = none := by
      intro j hj
      have := h (j + 1) (by simpa using hj)
      rw [outputAt_succ, hO] at this
      exact this
    obtain ⟨i1, i2, i3, i4⟩ := ih o w1 hrest
    simp only [executeLoop, hO, Ret.after]
    refine ⟨i1, ?_, ?_, ?_⟩
    · simp [bashCommands, i2]
    · rw [i3]; simp [worldAfter, hO]
    · rw [i4]
      cases cs with
      | nil => simp [outputAt_zero, hO]
      | cons d ds =>
        simp only [List.length_cons, Nat.add_sub_cancel, reduceCtorEq, if_false]
        rw [outputAt_succ, hO]

/-- When the `i`-th command is the first to fail the loop stops right after it. -/
theorem executeLoop_first_failure {W E : Type} (env : Env W E) :
    ∀ (cmds : List GoString) (out : GoString) (w : W) (i : Nat) (e : GoError E),
      i < cmds.length →
      (∀ j, j < i → (outputAt env cmds w j).2 = none) →
      (outputAt env cmds w i).2 = some e →
      (executeLoop env cmds out w).val = [] ∧
      (executeLoop env cmds out w).err = some e ∧
      bashCommands (executeLoop env cmds out w).trace = cmds.take (i + 1) := by
  intro cmds
  induction cmds with
  | nil => intro out w i e hi; simp at hi
  | cons c cs ih =>
    intro out w i e hi hbefore hfail
    rcases hO : env.Output c w with ⟨⟨o, e0⟩, w1⟩
    cases i with
    | zero =>
      rw [outputAt_zero, hO] at hfail
      simp only at hfail
      subst hfail
      simp [executeLoop, hO, bashCommands]
    | succ i =>
      have h0 := hbefore 0 (by omega)
      rw [outputAt_zero, hO] at h0
      simp only at h0
      subst h0
      rw [outputAt_succ, hO] at hfail
      have hrest : ∀ j, j < i → (outputAt env cs w1 j).2 = none := by
        intro j hj
        have := hbefore (j + 1) (by omega)
        rw [outputAt_succ, hO] at this
        exact this
      obtain ⟨i1, i2, i3⟩ := ih o w1 i e (by simpa using hi) hrest hfail
      simp only [executeLoop, hO, Ret.after]
      refine ⟨i1, i2, ?_⟩
      simp [bashCommands, i3]

/-- A `nil` error means that no command failed. -/
theorem executeLoop_err_none {W E : Type} (env : Env W E) :
    ∀ (cmds : List GoString) (out : GoString) (w : W),
      (executeLoop env cmds out w).err = none →
      ∀ j, j < cmds.length → (outputAt env cmds w j).2 = none := by
  intro cmds
  induction cmds with
  | nil => intro out w _ j hj; simp at hj
  | cons c cs ih =>
    intro out w h j hj
    rcases hO : env.Output c w with ⟨⟨o, e0⟩, w1⟩
    cases e0 with
    | some e => simp [executeLoop, hO] at h
    | none =>
      simp only [executeLoop, hO, Ret.after] at h
      cases j with
      | zero => rw [outputAt_zero, hO]
      | succ j =>
        rw [outputAt_succ, hO]
        exact ih o w1 h j (by simpa using hj)

/-- Whatever the commands do, the loop runs an initial part of the list, and a
non-empty part when the list is not empty. -/
theorem executeLoop_runs_initial {W E : Type} (env : Env W E) :
    ∀ (cmds : List GoString) (out : GoString) (w : W),
      ∃ n, (cmds ≠ [] → 0 < n) ∧
        bashCommands (executeLoop env cmds out w).trace = cmds.take n := by
  intro cmds
  induction cmds with
  | nil => intro out w; exact ⟨0, by simp, by simp [executeLoop, bashCommands]⟩
  | cons c cs ih =>
    intro out w
    rcases hO : env.Output c w with ⟨⟨o, e0⟩, w1⟩
    cases e0 with
    | some e => exact ⟨1, by simp, by simp [executeLoop, hO, bashCommands]⟩
    | none =>
      obtain ⟨n, _, hn⟩ := ih o w1
      exact ⟨n + 1, by simp, by simp [executeLoop, hO, Ret.after, bashCommands, hn]⟩

/-! ## Facts about `Interactive` -/

theorem Ret_after_nil {W E : Type} (r : Ret W E) : Ret.after [] r = r := by
  cases r; simp [Ret.after]

theorem Ret_after_after {W E : Type} (a b : List Event) (r : Ret W E) :
    Ret.after a (Ret.after b r) = Ret.after (a ++ b) r := by
  cases r; simp [Ret.after]

/-- Rounds answered with `r` only add their own actions in front of what the remaining
rounds do: the prompt is built and a response requested once per round, and no command
is run. -/
theorem Interactive_after_retries {W E : Type} (u : Unicode) (env : Env W E)
    (args : List GoString) :
    ∀ (k : Nat) (w wk : W), afterRetries u env args k w = some wk →
      ∃ evs : List Event, bashCommands evs = [] ∧ promptCalls evs = List.replicate k args ∧
        (responseCalls evs).length = k ∧
        ∀ fuel, Interactive u env (fuel + k) args w
          = (Interactive u env fuel args wk).map (Ret.after evs) := by
  intro k
  induction k with
  | zero =>
    intro w wk h
    simp only [afterRetries, Option.some.injEq] at h
    subst h
    refine ⟨[], rfl, rfl, rfl, ?_⟩
    intro fuel
    have : (Ret.after [] : Ret W E → Ret W E) = id := funext Ret_after_nil
    simp [this]
  | succ k ih =>
    intro w wk h
    rcases hP : env.InteractivePrompt args w with ⟨⟨prompt, ep⟩, w1⟩
    cases ep with
    | some e => simp [afterRetries, hP] at h
    | none =>
      rcases hR : env.GetResponse prompt w1 with ⟨⟨result, er⟩, w2⟩
      cases er with
      | some e => simp [afterRetries, hP, hR] at h
      | none =>
        rcases hS : env.Scan w2 with ⟨⟨confirm, es⟩, w3⟩
        cases es with
        | some e => simp [afterRetries, hP, hR, hS] at h
        | none =>
          simp only [afterRetries, hP, hR, hS] at h
          by_cases hr : ToLower u confirm = ascii "r"
          · rw [if_pos hr] at h
            obtain ⟨evs, e1, e2, e3, e4⟩ := ih w3 wk h
            refine ⟨[Event.interactivePrompt args, Event.getResponse prompt,
              Event.stdout (confirmText u result), Event.scan, Event.stdout newline] ++ evs,
              ?_, ?_, ?_, ?_⟩
            · rw [bashCommands_append, e1]; rfl
            · rw [promptCalls_append, e2]; rfl
            · rw [responseCalls_append, List.length_append, e3]
              simp [responseCalls]; omega
            · intro fuel
              have hfk : fuel + (k + 1) = (fuel + k) + 1 := by omega
              rw [hfk]
              simp only [Interactive, hP, hR, hS]
              have hny : ¬ (ToLower u confirm ≠ ascii "y" ∧ ToLower u confirm ≠ ascii "r") := by
                intro hc; exact hc.2 hr
              rw [if_neg hny, if_pos hr, e4 fuel, Option.map_map]
              congr 1
          · rw [if_neg hr] at h
            exact absurd h (by simp)

/-- With more fuel than retries, the call reduces to the round after the retries. -/
theorem Interactive_reach_round {W E : Type} (u : Unicode) (env : Env W E)
    (args : List GoString) (k fuel : Nat) (w wk : W)
    (hk : afterRetries u env args k w = some wk) (hfuel : k < fuel) :
    ∃ (evs : List Event) (f : Nat), bashCommands evs = [] ∧
      promptCalls evs = List.replicate k args ∧ (responseCalls evs).length = k ∧
      Interactive u env fuel args w = (Interactive u env (f + 1) args wk).map (Ret.after evs) := by
  obtain ⟨evs, e1, e2, e3, e4⟩ := Interactive_after_retries u env args k w wk hk
  refine ⟨evs, fuel - k - 1, e1, e2, e3, ?_⟩
  have := e4 (fuel - k - 1 + 1)
  have hf : fuel - k - 1 + 1 + k = fuel := by omega
  rw [hf] at this
  exact this

theorem executeLoop_val_of_err {W E : Type} (env : Env W E) :
    ∀ (cmds : List GoString) (out : GoString) (w : W) (e : GoError E),
      (executeLoop env cmds out w).err = some e → (executeLoop env cmds out w).val = [] := by
  intro cmds
  induction cmds with
  | nil => intro out w e h; simp [executeLoop] at h
  | cons c cs ih =>
    intro out w e h
    rcases hO : env.Output c w with ⟨⟨o, e0⟩, w1⟩
    cases e0 with
    | some e1 => simp [executeLoop, hO]
    | none =>
      simp only [executeLoop, hO, Ret.after] at h ⊢
      exact ih o w1 e h

/-- Running commands neither builds a prompt nor calls the remote service. -/
theorem executeLoop_no_calls {W E : Type} (env : Env W E) :
    ∀ (cmds : List GoString) (out : GoString) (w : W),
      promptCalls (executeLoop env cmds out w).trace = [] ∧
      responseCalls (executeLoop env cmds out w).trace = [] := by
  intro cmds
  induction cmds with
  | nil => intro out w; simp [executeLoop, promptCalls, responseCalls]
  | cons c cs ih =>
    intro out w
    rcases hO : env.Output c w with ⟨⟨o, e0⟩, w1⟩
    cases e0 with
    | some e1 => simp [executeLoop, hO, promptCalls, responseCalls]
    | none =>
      obtain ⟨h1, h2⟩ := ih o w1
      simp [executeLoop, hO, Ret.after, promptCalls, responseCalls, h1, h2]

theorem executeCommand_runs_some {W E : Type} (u : Unicode) (env : Env W E)
    (r : GoString) (w : W) : bashCommands (executeCommand u env r w).trace ≠ [] := by
  obtain ⟨n, h1, h2⟩ := executeLoop_runs_initial env (Split u r sepAnd) [] w
  have hn := h1 (Split_ne_nil u r sepAnd sepAnd_ne_nil)
  unfold executeCommand
  rw [h2]
  obtain ⟨n, rfl⟩ : ∃ n2, n = n2 + 1 := ⟨n - 1, by omega⟩
  cases hs : Split u r sepAnd with
  | nil => exact absurd hs (Split_ne_nil u r sepAnd sepAnd_ne_nil)
  | cons c cs => simp

/-- One round in which the prompt is built, the service responds and the user gives an
answer other than `r`. -/
theorem Interactive_round_answered {W E : Type} (u : Unicode) (env : Env W E)
    (args : List GoString) (f : Nat) (w w1 w2 w3 : W) (prompt result confirm : GoString)
    (hp : env.InteractivePrompt args w = ((prompt, none), w1))
    (hr : env.GetResponse prompt w1 = ((result, none), w2))
    (hs : env.Scan w2 = ((confirm, none), w3))
    (hnr : ToLower u confirm ≠ ascii "r") :
    ∃ ret, Interactive u env (f + 1) args w = some ret ∧
      promptCalls ret.trace = [args] ∧ responseCalls ret.trace = [prompt] ∧
      (ToLower u confirm ≠ ascii "y" →
        ret.val = [] ∧
        ret.err = some (GoError.errorf
          (ascii "Command execution aborted. \x27" ++ confirm ++ ascii "\x27")) ∧
        bashCommands ret.trace = []) ∧
      (ToLower u confirm = ascii "y" →
        ret.val = (executeCommand u env result w3).val ∧
        ret.err = (executeCommand u env result w3).err ∧
        bashCommands ret.trace = bashCommands (executeCommand u env result w3).trace) := by
  by_cases hy : ToLower u confirm = ascii "y"
  · have hc : ¬ (ToLower u confirm ≠ ascii "y" ∧ ToLower u confirm ≠ ascii "r") := by
      intro hc; exact hc.1 hy
    simp only [Interactive, hp, hr, hs, if_neg hc, if_neg hnr]
    obtain ⟨hc1, hc2⟩ := executeLoop_no_calls env (Split u result sepAnd) [] w3
    cases he : (executeCommand u env result w3).err with
    | some e =>
      refine ⟨_, rfl, ?_, ?_, fun h => absurd hy h, fun _ => ⟨?_, ?_, ?_⟩⟩
      · simp [promptCalls, executeCommand, hc1]
      · simp [responseCalls, executeCommand, hc2]
      · exact (executeLoop_val_of_err env _ _ _ e he).symm
      · rfl
      · simp [bashCommands]
    | none =>
      refine ⟨_, rfl, ?_, ?_, fun h => absurd hy h, fun _ => ⟨rfl, rfl, ?_⟩⟩
      · simp [promptCalls, executeCommand, hc1]
      · simp [responseCalls, executeCommand, hc2]
      · simp [bashCommands]
  · have hc : (ToLower u confirm ≠ ascii "y" ∧ ToLower u confirm ≠ ascii "r") := ⟨hy, hnr⟩
    simp only [Interactive, hp, hr, hs, if_pos hc]
    refine ⟨_, rfl, rfl, rfl, fun _ => ⟨rfl, rfl, rfl⟩, fun h => absurd h hy⟩

/-- One round in which the user accepts: the actions are the prompt build, the request,
the confirmation text of the response received, the read, a newline, and then those of
`executeCommand` on that same response. -/
theorem Interactive_round_yes_trace {W E : Type} (u : Unicode) (env : Env W E)
    (args : List GoString) (f : Nat) (w w1 w2 w3 : W) (prompt result confirm : GoString)
    (hp : env.InteractivePrompt args w = ((prompt, none), w1))
    (hr : env.GetResponse prompt w1 = ((result, none), w2))
    (hs : env.Scan w2 = ((confirm, none), w3))
    (hy : ToLower u confirm = ascii "y") :
    ∃ ret, Interactive u env (f + 1) args w = some ret ∧
      ret.trace = [Event.interactivePrompt args, Event.getResponse prompt,
          Event.stdout (confirmText u result), Event.scan, Event.stdout newline]
        ++ (executeCommand u env result w3).trace := by
  have hnr : ToLower u confirm ≠ ascii "r" := by rw [hy]; decide
  have hc : ¬ (ToLower u confirm ≠ ascii "y" ∧ ToLower u confirm ≠ ascii "r") := by
    intro hc; exact hc.1 hy
  simp only [Interactive, hp, hr, hs, if_neg hc, if_neg hnr]
  cases he : (executeCommand u env result w3).err with
  | some e => exact ⟨_, rfl, rfl⟩
  | none => exact ⟨_, rfl, rfl⟩

/-! ## Properties of `CommandsService.go` -/

/-- C1: when every command succeeds, `executeCommand(r)` runs exactly the segments of
`strings.Split(r, " && ")`, one `bash -c` per segment, in order; whatever the commands do
at least one command is run, and the empty response runs the single empty command. -/
theorem executeCommand_runs_every_segment {W E : Type} (u : Unicode) (env : Env W E)
    (r : GoString) (w : W) :
    ((∀ j, j < (Split u r sepAnd).length → (outputAt env (Split u r sepAnd) w j).2 = none) →
      bashCommands (executeCommand u env r w).trace = Split u r sepAnd) ∧
    (∃ n, 0 < n ∧
      bashCommands (executeCommand u env r w).trace = (Split u r sepAnd).take n) ∧
    bashCommands (executeCommand u env [] w).trace = [[]] := by
  refine ⟨?_, ?_, ?_⟩
  · intro h
    exact (executeLoop_all_succeed env _ [] w h).2.1
  · obtain ⟨n, h1, h2⟩ := executeLoop_runs_initial env (Split u r sepAnd) [] w
    exact ⟨n, h1 (Split_ne_nil u r sepAnd sepAnd_ne_nil), h2⟩
  · obtain ⟨n, h1, h2⟩ := executeLoop_runs_initial env (Split u [] sepAnd) [] w
    unfold executeCommand
    rw [h2, Split_nil u sepAnd sepAnd_ne_nil]
    have hn := h1 (Split_ne_nil u [] sepAnd sepAnd_ne_nil)
    obtain ⟨n, rfl⟩ : ∃ n2, n = n2 + 1 := ⟨n - 1, by omega⟩
    simp

/-- C2: if the `i`-th segment is the first whose execution fails, `executeCommand(r)`
runs segments `0..i` only and returns the empty string with that command's error; the
returned error is `nil` exactly when every segment succeeded. -/
theorem executeCommand_stops_at_first_failure {W E : Type} (u : Unicode) (env : Env W E)
    (r : GoString) (w : W) :
    (∀ (i : Nat) (e : GoError E), i < (Split u r sepAnd).length →
      (∀ j, j < i → (outputAt env (Split u r sepAnd) w j).2 = none) →
      (outputAt env (Split u r sepAnd) w i).2 = some e →
      bashCommands (executeCommand u env r w).trace = (Split u r sepAnd).take (i + 1) ∧
      (executeCommand u env r w).val = [] ∧
      (executeCommand u env r w).err = some e) ∧
    ((executeCommand u env r w).err = none ↔
      ∀ j, j < (Split u r sepAnd).length → (outputAt env (Split u r sepAnd) w j).2 = none) := by
  refine ⟨?_, ?_, ?_⟩
  · intro i e hi hbefore hfail
    obtain ⟨h1, h2, h3⟩ :=
      executeLoop_first_failure env (Split u r sepAnd) [] w i e hi hbefore hfail
    exact ⟨h3, h1, h2⟩
  · exact executeLoop_err_none env (Split u r sepAnd) [] w
  · intro h
    exact (executeLoop_all_succeed env _ [] w h).1

/-- C7: `Version` returns `NAME + " version " + VERSION` with a `nil` error, in every
state, leaving the world as it was and performing no action. -/
theorem Version_returns_name_and_version {W E : Type} (m : Models) (w : W) :
    (Version m w : Ret W E).val = m.NAME ++ ascii " version " ++ m.VERSION ∧
    (Version m w : Ret W E).err = none ∧
    (Version m w : Ret W E).world = w ∧
    (Version m w : Ret W E).trace = [] :=
  ⟨rfl, rfl, rfl, rfl⟩

/-- C8: what is shown is what is run.  For every response `r`,
`ReplaceAll(r, " && ", "\n")` is `Join(Split(r, " && "), "\n")`, also with adjacent
separators as in `"a && && b"`.  In a call of `Interactive` whose final answer
lower-cases to `y`, the last three actions before the commands are: printing the
confirmation text of the response that is then handed to `executeCommand`, reading the
answer, printing a newline; the commands run are a non-empty initial part of the
segments shown, and when every command succeeds the text shown is the header, `Green`,
the commands run joined by newlines, `Reset` and the footer. -/
theorem shown_commands_are_the_segments {W E : Type} (u : Unicode) (env : Env W E) :
    (∀ r : GoString,
      ReplaceAll u r sepAnd newline = Join (Split u r sepAnd) newline ∧
      confirmText u r = ascii "Here are the commands to execute: \n\n"
        ++ (Green ++ Join (Split u r sepAnd) newline ++ Reset)
        ++ ascii "\n\nDo you want to apply it? [y/n/r]: ") ∧
    ReplaceAll u (ascii "a && && b") sepAnd newline = ascii "a\n&& b" ∧
    Split u (ascii "a && && b") sepAnd = [ascii "a", ascii "&& b"] ∧
    (∀ (args : List GoString) (k fuel : Nat) (w wk w1 w2 w3 : W)
        (prompt result confirm : GoString),
      afterRetries u env args k w = some wk →
      env.InteractivePrompt args wk = ((prompt, none), w1) →
      env.GetResponse prompt w1 = ((result, none), w2) →
      env.Scan w2 = ((confirm, none), w3) →
      ToLower u confirm = ascii "y" →
      k < fuel →
      ∃ (ret : Ret W E) (pre : List Event),
        Interactive u env fuel args w = some ret ∧
        bashCommands pre = [] ∧
        ret.trace = pre ++ [Event.stdout (ascii "Here are the commands to execute: \n\n"
              ++ (Green ++ Join (Split u result sepAnd) newline ++ Reset)
              ++ ascii "\n\nDo you want to apply it? [y/n/r]: "),
            Event.scan, Event.stdout newline]
          ++ (executeCommand u env result w3).trace ∧
        bashCommands ret.trace = bashCommands (executeCommand u env result w3).trace ∧
        (∃ n, 0 < n ∧ bashCommands ret.trace = (Split u result sepAnd).take n) ∧
        ((∀ j, j < (Split u result sepAnd).length →
            (outputAt env (Split u result sepAnd) w3 j).2 = none) →
          bashCommands ret.trace = Split u result sepAnd ∧
          ret.trace = pre ++ [Event.stdout (ascii "Here are the commands to execute: \n\n"
                ++ (Green ++ Join (bashCommands ret.trace) newline ++ Reset)
                ++ ascii "\n\nDo you want to apply it? [y/n/r]: "),
              Event.scan, Event.stdout newline]
            ++ (executeCommand u env result w3).trace)) := by
  have h : ∀ s, ReplaceAll u s sepAnd newline = Join (Split u s sepAnd) newline :=
    fun s => ReplaceAll_eq_Join_Split u s sepAnd newline (by decide) (by decide)
  have hc : ∀ s, confirmText u s = ascii "Here are the commands to execute: \n\n"
      ++ (Green ++ Join (Split u s sepAnd) newline ++ Reset)
      ++ ascii "\n\nDo you want to apply it? [y/n/r]: " := by
    intro s; unfold confirmText; rw [h s]
  have hs : Split u (ascii "a && && b") sepAnd = [ascii "a", ascii "&& b"] := by
    have h1 : Split u (ascii "a && && b") sepAnd = Split asciiOnly (ascii "a && && b") sepAnd := by
      simp [Split, genSplit, Count, sepAnd_eq]
    rw [h1]; decide
  refine ⟨fun r => ⟨h r, hc r⟩, by rw [h, hs]; decide, hs, ?_⟩
  intro args k fuel w wk w1 w2 w3 prompt result confirm hk hp hr hsc hy hfuel
  obtain ⟨evs, f, e1, _, _, e4⟩ := Interactive_reach_round u env args k fuel w wk hk hfuel
  obtain ⟨ret, h1, h2⟩ :=
    Interactive_round_yes_trace u env args f wk w1 w2 w3 prompt result confirm hp hr hsc hy
  have hpre : bashCommands (evs ++ [Event.interactivePrompt args, Event.getResponse prompt])
      = [] := by
    rw [bashCommands_append, e1]; rfl
  have htr : (Ret.after evs ret).trace
      = (evs ++ [Event.interactivePrompt args, Event.getResponse prompt])
        ++ [Event.stdout (ascii "Here are the commands to execute: \n\n"
              ++ (Green ++ Join (Split u result sepAnd) newline ++ Reset)
              ++ ascii "\n\nDo you want to apply it? [y/n/r]: "),
            Event.scan, Event.stdout newline]
        ++ (executeCommand u env result w3).trace := by
    show evs ++ ret.trace = _
    rw [h2, hc result]
    simp only [List.append_assoc, List.cons_append, List.nil_append]
  have hb : bashCommands (Ret.after evs ret).trace
      = bashCommands (executeCommand u env result w3).trace := by
    rw [htr, bashCommands_append, bashCommands_append, hpre]
    simp [bashCommands]
  refine ⟨Ret.after evs ret, evs ++ [Event.interactivePrompt args, Event.getResponse prompt],
    by rw [e4, h1]; rfl, hpre, htr, hb, ?_, ?_⟩
  · obtain ⟨n, n1, n2⟩ := executeLoop_runs_initial env (Split u result sepAnd) [] w3
    exact ⟨n, n1 (Split_ne_nil u result sepAnd sepAnd_ne_nil), by rw [hb]; exact n2⟩
  · intro hall
    have hrun : bashCommands (Ret.after evs ret).trace = Split u result sepAnd := by
      rw [hb]; exact (executeLoop_all_succeed env _ [] w3 hall).2.1
    refine ⟨hrun, ?_⟩
    rw [hrun]; exact htr

/-- C3: after any number of retries, a final answer whose lower-cased form is neither
`y` nor `r` makes `Interactive` run no shell command and return the empty string with
the error `Command execution aborted. '<answer>'`, the answer as typed; a command is run
only if the answer lower-cases to `y`, and then one is run; `y` and `Y` lower-case to
`y`, while `n`, `N` and `yes` lower-case to neither `y` nor `r`. -/
theorem Interactive_aborts_unless_yes {W E : Type} (u : Unicode) (env : Env W E)
    (args : List GoString) (k fuel : Nat) (w wk w1 w2 w3 : W)
    (prompt result confirm : GoString)
    (hk : afterRetries u env args k w = some wk)
    (hp : env.InteractivePrompt args wk = ((prompt, none), w1))
    (hr : env.GetResponse prompt w1 = ((result, none), w2))
    (hs : env.Scan w2 = ((confirm, none), w3))
    (hfinal : ToLower u confirm ≠ ascii "r")
    (hfuel : k < fuel) :
    (∃ ret, Interactive u env fuel args w = some ret ∧
      (ToLower u confirm ≠ ascii "y" →
        ret.val = [] ∧
        ret.err = some (GoError.errorf
          (ascii "Command execution aborted. \x27" ++ confirm ++ ascii "\x27")) ∧
        bashCommands ret.trace = []) ∧
      (bashCommands ret.trace ≠ [] ↔ ToLower u confirm = ascii "y")) ∧
    ToLower u (ascii "y") = ascii "y" ∧ ToLower u (ascii "Y") = ascii "y" ∧
    ToLower u (ascii "n") = ascii "n" ∧ ToLower u (ascii "N") = ascii "n" ∧
    ToLower u (ascii "yes") = ascii "yes" := by
  refine ⟨?_, rfl, rfl, rfl, rfl, rfl⟩
  obtain ⟨evs, f, e1, _, _, e4⟩ := Interactive_reach_round u env args k fuel w wk hk hfuel
  obtain ⟨ret, h1, _, _, h4, h5⟩ :=
    Interactive_round_answered u env args f wk w1 w2 w3 prompt result confirm hp hr hs hfinal
  refine ⟨Ret.after evs ret, by rw [e4, h1]; rfl, ?_, ?_⟩
  · intro hny
    obtain ⟨a, b, c⟩ := h4 hny
    refine ⟨a, b, ?_⟩
    simp only [Ret.after, bashCommands_append, e1, c, List.append_nil]
  · simp only [Ret.after, bashCommands_append, e1, List.nil_append]
    constructor
    · intro hne
      by_contra hny
      exact hne (h4 hny).2.2
    · intro hy
      rw [(h5 hy).2.2]
      exact executeCommand_runs_some u env result w3

/-- C4: with `k` answers that lower-case to `r` followed by one final answer,
`Interactive` builds the prompt `k + 1` times, each time from the same `args`, requests a
response `k + 1` times, and the commands it runs are those of `executeCommand` on the
last response when the final answer lower-cases to `y`, and none otherwise: nothing of
a retried response is run. -/
theorem Interactive_retry_uses_last_response {W E : Type} (u : Unicode) (env : Env W E)
    (args : List GoString) (k fuel : Nat) (w wk w1 w2 w3 : W)
    (prompt result confirm : GoString)
    (hk : afterRetries u env args k w = some wk)
    (hp : env.InteractivePrompt args wk = ((prompt, none), w1))
    (hr : env.GetResponse prompt w1 = ((result, none), w2))
    (hs : env.Scan w2 = ((confirm, none), w3))
    (hfinal : ToLower u confirm ≠ ascii "r")
    (hfuel : k < fuel) :
    ∃ ret, Interactive u env fuel args w = some ret ∧
      promptCalls ret.trace = List.replicate (k + 1) args ∧
      (responseCalls ret.trace).length = k + 1 ∧
      (responseCalls ret.trace).getLast? = some prompt ∧
      bashCommands ret.trace =
        (if ToLower u confirm = ascii "y"
          then bashCommands (executeCommand u env result w3).trace else []) := by
  obtain ⟨evs, f, e1, e2, e3, e4⟩ := Interactive_reach_round u env args k fuel w wk hk hfuel
  obtain ⟨ret, h1, h2, h3, h4, h5⟩ :=
    Interactive_round_answered u env args f wk w1 w2 w3 prompt result confirm hp hr hs hfinal
  refine ⟨Ret.after evs ret, by rw [e4, h1]; rfl, ?_, ?_, ?_, ?_⟩
  · simp only [Ret.after, promptCalls_append, e2, h2]
    rw [List.replicate_succ']
  · simp only [Ret.after, responseCalls_append, List.length_append, e3, h3, List.length_singleton]
  · simp only [Ret.after, responseCalls_append, h3]
    simp
  · simp only [Ret.after, bashCommands_append, e1, List.nil_append]
    by_cases hy : ToLower u confirm = ascii "y"
    · rw [if_pos hy]; exact (h5 hy).2.2
    · rw [if_neg hy]; exact (h4 hy).2.2

/-- C5: in the round reached after any number of retries, if building the prompt fails,
or the remote request fails, or reading the answer fails, `Interactive` returns the
empty string with that very error and has run no shell command; when building the
prompt fails the remote service is not called in that round. -/
theorem Interactive_returns_the_error {W E : Type} (u : Unicode) (env : Env W E)
    (args : List GoString) (k fuel : Nat) (w wk : W)
    (hk : afterRetries u env args k w = some wk) (hfuel : k < fuel) :
    (∀ (x : GoString) (e : GoError E) (w1 : W),
      env.InteractivePrompt args wk = ((x, some e), w1) →
      ∃ ret, Interactive u env fuel args w = some ret ∧ ret.val = [] ∧ ret.err = some e ∧
        bashCommands ret.trace = [] ∧ (responseCalls ret.trace).length = k) ∧
    (∀ (prompt x : GoString) (e : GoError E) (w1 w2 : W),
      env.InteractivePrompt args wk = ((prompt, none), w1) →
      env.GetResponse prompt w1 = ((x, some e), w2) →
      ∃ ret, Interactive u env fuel args w = some ret ∧ ret.val = [] ∧ ret.err = some e ∧
        bashCommands ret.trace = []) ∧
    (∀ (prompt result x : GoString) (e : GoError E) (w1 w2 w3 : W),
      env.InteractivePrompt args wk = ((prompt, none), w1) →
      env.GetResponse prompt w1 = ((result, none), w2) →
      env.Scan w2 = ((x, some e), w3) →
      ∃ ret, Interactive u env fuel args w = some ret ∧ ret.val = [] ∧ ret.err = some e ∧
        bashCommands ret.trace = []) := by
  obtain ⟨evs, f, e1, _, e3, e4⟩ := Interactive_reach_round u env args k fuel w wk hk hfuel
  refine ⟨?_, ?_, ?_⟩
  · intro x e w1 hp
    refine ⟨_, by rw [e4]; simp only [Interactive, hp]; rfl, rfl, rfl, ?_, ?_⟩
    · simp [Ret.after, bashCommands_append, e1, bashCommands]
    · simp [Ret.after, responseCalls_append, e3, responseCalls]
  · intro prompt x e w1 w2 hp hr
    refine ⟨_, by rw [e4]; simp only [Interactive, hp, hr]; rfl, rfl, rfl, ?_⟩
    simp [Ret.after, bashCommands_append, e1, bashCommands]
  · intro prompt result x e w1 w2 w3 hp hr hs
    refine ⟨_, by rw [e4]; simp only [Interactive, hp, hr, hs]; rfl, rfl, rfl, ?_⟩
    simp [Ret.after, bashCommands_append, e1, bashCommands]

/-- C9: when every command of the response succeeds, `executeCommand(r)` returns the
output of the last segment only, which for a response without separator is the output of
that one command; and `Interactive`, on a final answer that lower-cases to `y`, returns
that same string with a `nil` error. -/
theorem executeCommand_returns_last_output {W E : Type} (u : Unicode) (env : Env W E)
    (r : GoString) :
    (∀ w : W,
      (∀ j, j < (Split u r sepAnd).length → (outputAt env (Split u r sepAnd) w j).2 = none) →
      (executeCommand u env r w).val
        = (outputAt env (Split u r sepAnd) w ((Split u r sepAnd).length - 1)).1 ∧
      (executeCommand u env r w).err = none ∧
      (Index r sepAnd = -1 → (executeCommand u env r w).val = (env.Output r w).1.1)) ∧
    (∀ (args : List GoString) (k fuel : Nat) (w wk w1 w2 w3 : W) (prompt confirm : GoString),
      afterRetries u env args k w = some wk →
      env.InteractivePrompt args wk = ((prompt, none), w1) →
      env.GetResponse prompt w1 = ((r, none), w2) →
      env.Scan w2 = ((confirm, none), w3) →
      ToLower u confirm = ascii "y" →
      (∀ j, j < (Split u r sepAnd).length → (outputAt env (Split u r sepAnd) w3 j).2 = none) →
      k < fuel →
      ∃ ret, Interactive u env fuel args w = some ret ∧ ret.err = none ∧
        ret.val = (outputAt env (Split u r sepAnd) w3 ((Split u r sepAnd).length - 1)).1) := by
  have hA : ∀ w : W,
      (∀ j, j < (Split u r sepAnd).length → (outputAt env (Split u r sepAnd) w j).2 = none) →
      (executeCommand u env r w).val
        = (outputAt env (Split u r sepAnd) w ((Split u r sepAnd).length - 1)).1 ∧
      (executeCommand u env r w).err = none := by
    intro w h
    obtain ⟨h1, _, _, h4⟩ := executeLoop_all_succeed env (Split u r sepAnd) [] w h
    refine ⟨?_, h1⟩
    unfold executeCommand
    rw [h4, if_neg (Split_ne_nil u r sepAnd sepAnd_ne_nil)]
  refine ⟨?_, ?_⟩
  · intro w h
    refine ⟨(hA w h).1, (hA w h).2, ?_⟩
    intro hi
    rw [(hA w h).1, Split_of_Index_neg u r sepAnd sepAnd_ne_nil hi]
    simp [outputAt_zero]
  · intro args k fuel w wk w1 w2 w3 prompt confirm hk hp hr hs hy hall hfuel
    obtain ⟨evs, f, _, _, _, e4⟩ := Interactive_reach_round u env args k fuel w wk hk hfuel
    have hnr : ToLower u confirm ≠ ascii "r" := by rw [hy]; decide
    obtain ⟨ret, h1, _, _, _, h5⟩ :=
      Interactive_round_answered u env args f wk w1 w2 w3 prompt r confirm hp hr hs hnr
    obtain ⟨a, b, _⟩ := h5 hy
    refine ⟨Ret.after evs ret, by rw [e4, h1]; rfl, ?_, ?_⟩
    · show ret.err = none
      rw [b]; exact (hA w3 hall).2
    · show ret.val = _
      rw [a]; exact (hA w3 hall).1

/-- C6: when the browser opens, both lines are read and the user is found, `Auth` hands
`SaveConfigFile` one configuration whose prompt is `DEFAULT_PROMPT` if `TrimSpace(p)` is
empty and `TrimSpace(p) + ", " + DEFAULT_PROMPT` otherwise, where `p` is the prompt
line; that prompt ends with `DEFAULT_PROMPT` and is not empty unless `DEFAULT_PROMPT`
is; the saved key is `TrimSpace` of the key line, which for an ASCII line is the line
without the white space at its two ends. -/
theorem Auth_saves_trimmed_key_and_prompt {W E : Type} (u : Unicode) (m : Models)
    (env : Env W E) (w w1 w2 w3 w4 : W) (keyLine p home : GoString)
    (ho : env.OpenURL (ascii "https://platform.openai.com/api-keys") w = (none, w1))
    (hkey : env.ReadString w1 = ((keyLine, none), w2))
    (hp : env.ReadString w2 = ((p, none), w3))
    (hu : env.UserCurrent w3 = ((home, none), w4)) :
    ∃ cfg : FileConfig,
      savedConfigs (Auth u m env w).trace = [(home ++ m.CONFIG_FOLDER ++ m.FILENAME, cfg)] ∧
      (Auth u m env w).world
        = env.SaveConfigFile (home ++ m.CONFIG_FOLDER ++ m.FILENAME) cfg
            (env.Mkdir (home ++ m.CONFIG_FOLDER) w4) ∧
      (Auth u m env w).err = none ∧ (Auth u m env w).val = ascii "done" ∧
      cfg.Prompt.Custom
        = (if TrimSpace u p = [] then m.DEFAULT_PROMPT
           else TrimSpace u p ++ ascii ", " ++ m.DEFAULT_PROMPT) ∧
      (∃ t, cfg.Prompt.Custom = t ++ m.DEFAULT_PROMPT) ∧
      (m.DEFAULT_PROMPT ≠ [] → cfg.Prompt.Custom ≠ []) ∧
      cfg.ApiKey.Key = TrimSpace u keyLine ∧
      ((∀ c ∈ keyLine, c < 128) → cfg.ApiKey.Key
        = ((keyLine.dropWhile asciiSpace).reverse.dropWhile asciiSpace).reverse) := by
  by_cases he : TrimSpace u p = []
  · refine ⟨⟨⟨TrimSpace u keyLine⟩, ⟨m.DEFAULT_PROMPT⟩⟩, ?_, ?_, ?_, ?_, ?_, ⟨[], rfl⟩,
      fun h => h, rfl, fun h => TrimSpace_ascii u keyLine h⟩
    · simp [Auth, ho, hkey, hp, hu, he, savedConfigs]
    · simp [Auth, ho, hkey, hp, hu, he]
    · simp [Auth, ho, hkey, hp, hu]
    · simp [Auth, ho, hkey, hp, hu]
    · simp [he]
  · have hl : ¬ (TrimSpace u p).length = 0 := by
      intro h; exact he (List.length_eq_zero.mp h)
    refine ⟨⟨⟨TrimSpace u keyLine⟩, ⟨TrimSpace u p ++ ascii ", " ++ m.DEFAULT_PROMPT⟩⟩,
      ?_, ?_, ?_, ?_, ?_, ⟨TrimSpace u p ++ ascii ", ", rfl⟩, ?_, rfl,
      fun h => TrimSpace_ascii u keyLine h⟩
    · simp [Auth, ho, hkey, hp, hu, hl, savedConfigs]
    · simp [Auth, ho, hkey, hp, hu, hl]
    · simp [Auth, ho, hkey, hp, hu]
    · simp [Auth, ho, hkey, hp, hu]
    · simp [he]
    · intro _ h
      simp at h
      exact he h.1

/-! ## The properties on the scripted world -/

/-- C1 on a response of two commands that both succeed. -/
theorem executeCommand_runs_every_segment_witness :
    (∀ j, j < (Split asciiOnly demoFirst sepAnd).length →
      (outputAt scripted (Split asciiOnly demoFirst sepAnd) (demoWorld 0 [] []) j).2 = none) ∧
    bashCommands (executeCommand asciiOnly scripted demoFirst (demoWorld 0 [] [])).trace
      = Split asciiOnly demoFirst sepAnd ∧
    Split asciiOnly demoFirst sepAnd = [ascii "git add .", ascii "git commit -m wip"] :=
  ⟨by decide,
   (executeCommand_runs_every_segment asciiOnly scripted demoFirst (demoWorld 0 [] [])).1
     (by decide),
   by decide⟩

/-- C2 on a response whose second command of three fails. -/
theorem executeCommand_stops_at_first_failure_witness :
    (1 < (Split asciiOnly (ascii "git add . && false && git push") sepAnd).length ∧
      (∀ j, j < 1 → (outputAt scripted (Split asciiOnly (ascii "git add . && false && git push")
        sepAnd) (demoWorld 0 [] []) j).2 = none) ∧
      (outputAt scripted (Split asciiOnly (ascii "git add . && false && git push") sepAnd)
        (demoWorld 0 [] []) 1).2 = some (GoError.other 3)) ∧
    (bashCommands (executeCommand asciiOnly scripted (ascii "git add . && false && git push")
        (demoWorld 0 [] [])).trace
      = (Split asciiOnly (ascii "git add . && false && git push") sepAnd).take (1 + 1) ∧
     (executeCommand asciiOnly scripted (ascii "git add . && false && git push")
        (demoWorld 0 [] [])).val = [] ∧
     (executeCommand asciiOnly scripted (ascii "git add . && false && git push")
        (demoWorld 0 [] [])).err = some (GoError.other 3)) :=
  ⟨⟨by decide, by decide, by decide⟩,
   (executeCommand_stops_at_first_failure asciiOnly scripted
      (ascii "git add . && false && git push") (demoWorld 0 [] [])).1 1 (GoError.other 3)
      (by decide) (by decide) (by decide)⟩

/-- C3 on the answers `r` then `N`: the second response is not run and the error quotes
`N`. -/
theorem Interactive_aborts_unless_yes_witness :
    (afterRetries asciiOnly scripted [ascii "wip"] 1
        (demoWorld 2 [demoFirst, demoSecond] [ascii "r", ascii "N"])
      = some (demoWorld 1 [demoSecond] [ascii "N"]) ∧
     scripted.InteractivePrompt [ascii "wip"] (demoWorld 1 [demoSecond] [ascii "N"])
      = ((ascii "+fix wip", none), demoWorld 0 [demoSecond] [ascii "N"]) ∧
     scripted.GetResponse (ascii "+fix wip") (demoWorld 0 [demoSecond] [ascii "N"])
      = ((demoSecond, none), demoWorld 0 [] [ascii "N"]) ∧
     scripted.Scan (demoWorld 0 [] [ascii "N"]) = ((ascii "N", none), demoWorld 0 [] []) ∧
     ToLower asciiOnly (ascii "N") ≠ ascii "r" ∧ 1 < 2) ∧
    ((∃ ret, Interactive asciiOnly scripted 2 [ascii "wip"]
        (demoWorld 2 [demoFirst, demoSecond] [ascii "r", ascii "N"]) = some ret ∧
      (ToLower asciiOnly (ascii "N") ≠ ascii "y" →
        ret.val = [] ∧
        ret.err = some (GoError.errorf
          (ascii "Command execution aborted. \x27" ++ ascii "N" ++ ascii "\x27")) ∧
        bashCommands ret.trace = []) ∧
      (bashCommands ret.trace ≠ [] ↔ ToLower asciiOnly (ascii "N") = ascii "y")) ∧
    ToLower asciiOnly (ascii "y") = ascii "y" ∧ ToLower asciiOnly (ascii "Y") = ascii "y" ∧
    ToLower asciiOnly (ascii "n") = ascii "n" ∧ ToLower asciiOnly (ascii "N") = ascii "n" ∧
    ToLower asciiOnly (ascii "yes") = ascii "yes") :=
  ⟨⟨rfl, rfl, rfl, rfl, by decide, by decide⟩,
   Interactive_aborts_unless_yes asciiOnly scripted [ascii "wip"] 1 2
     (demoWorld 2 [demoFirst, demoSecond] [ascii "r", ascii "N"])
     (demoWorld 1 [demoSecond] [ascii "N"]) (demoWorld 0 [demoSecond] [ascii "N"])
     (demoWorld 0 [] [ascii "N"]) (demoWorld 0 [] [])
     (ascii "+fix wip") demoSecond (ascii "N") rfl rfl rfl rfl (by decide) (by decide)⟩

/-- C4 on the answers `r`, `R`, `y`: three prompts, three requests, and the commands of
the third response are the ones run. -/
theorem Interactive_retry_uses_last_response_witness :
    (afterRetries asciiOnly scripted [ascii "wip"] 2
        (demoWorld 3 [demoFirst, demoFirst, demoSecond] [ascii "r", ascii "R", ascii "y"])
      = some (demoWorld 1 [demoSecond] [ascii "y"]) ∧
     scripted.InteractivePrompt [ascii "wip"] (demoWorld 1 [demoSecond] [ascii "y"])
      = ((ascii "+fix wip", none), demoWorld 0 [demoSecond] [ascii "y"]) ∧
     scripted.GetResponse (ascii "+fix wip") (demoWorld 0 [demoSecond] [ascii "y"])
      = ((demoSecond, none), demoWorld 0 [] [ascii "y"]) ∧
     scripted.Scan (demoWorld 0 [] [ascii "y"]) = ((ascii "y", none), demoWorld 0 [] []) ∧
     ToLower asciiOnly (ascii "y") ≠ ascii "r" ∧ 2 < 3) ∧
    (∃ ret, Interactive asciiOnly scripted 3 [ascii "wip"]
        (demoWorld 3 [demoFirst, demoFirst, demoSecond] [ascii "r", ascii "R", ascii "y"])
        = some ret ∧
      promptCalls ret.trace = List.replicate (2 + 1) [ascii "wip"] ∧
      (responseCalls ret.trace).length = 2 + 1 ∧
      (responseCalls ret.trace).getLast? = some (ascii "+fix wip") ∧
      bashCommands ret.trace =
        (if ToLower asciiOnly (ascii "y") = ascii "y"
          then bashCommands (executeCommand asciiOnly scripted demoSecond
            (demoWorld 0 [] [])).trace
          else [])) ∧
    bashCommands (executeCommand asciiOnly scripted demoSecond (demoWorld 0 [] [])).trace
      = [ascii "git add -A", ascii "git commit -m fix"] :=
  ⟨⟨rfl, rfl, rfl, rfl, by decide, by decide⟩,
   Interactive_retry_uses_last_response asciiOnly scripted [ascii "wip"] 2 3
     (demoWorld 3 [demoFirst, demoFirst, demoSecond] [ascii "r", ascii "R", ascii "y"])
     (demoWorld 1 [demoSecond] [ascii "y"]) (demoWorld 0 [demoSecond] [ascii "y"])
     (demoWorld 0 [] [ascii "y"]) (demoWorld 0 [] [])
     (ascii "+fix wip") demoSecond (ascii "y") rfl rfl rfl rfl (by decide) (by decide),
   by decide⟩

/-- C5 after one retry: the prompt builder finds no diff, the service has no response
left, or the input has ended. -/
theorem Interactive_returns_the_error_witness :
    (afterRetries asciiOnly scripted [ascii "wip"] 1 (demoWorld 1 [demoFirst] [ascii "r"])
        = some (demoWorld 0 [] []) ∧
      scripted.InteractivePrompt [ascii "wip"] (demoWorld 0 [] [])
        = (([], some (GoError.other 1)), demoWorld 0 [] []) ∧
      ∃ ret, Interactive asciiOnly scripted 2 [ascii "wip"] (demoWorld 1 [demoFirst] [ascii "r"])
          = some ret ∧ ret.val = [] ∧ ret.err = some (GoError.other 1) ∧
        bashCommands ret.trace = [] ∧ (responseCalls ret.trace).length = 1) ∧
    (afterRetries asciiOnly scripted [ascii "wip"] 1 (demoWorld 2 [demoFirst] [ascii "r"])
        = some (demoWorld 1 [] []) ∧
      scripted.InteractivePrompt [ascii "wip"] (demoWorld 1 [] [])
        = ((ascii "+fix wip", none), demoWorld 0 [] []) ∧
      scripted.GetResponse (ascii "+fix wip") (demoWorld 0 [] [])
        = (([], some (GoError.other 2)), demoWorld 0 [] []) ∧
      ∃ ret, Interactive asciiOnly scripted 2 [ascii "wip"] (demoWorld 2 [demoFirst] [ascii "r"])
          = some ret ∧ ret.val = [] ∧ ret.err = some (GoError.other 2) ∧
        bashCommands ret.trace = []) ∧
    (afterRetries asciiOnly scripted [ascii "wip"] 1
          (demoWorld 2 [demoFirst, demoSecond] [ascii "r"])
        = some (demoWorld 1 [demoSecond] []) ∧
      scripted.InteractivePrompt [ascii "wip"] (demoWorld 1 [demoSecond] [])
        = ((ascii "+fix wip", none), demoWorld 0 [demoSecond] []) ∧
      scripted.GetResponse (ascii "+fix wip") (demoWorld 0 [demoSecond] [])
        = ((demoSecond, none), demoWorld 0 [] []) ∧
      scripted.Scan (demoWorld 0 [] []) = (([], some (GoError.other 0)), demoWorld 0 [] []) ∧
      ∃ ret, Interactive asciiOnly scripted 2 [ascii "wip"]
          (demoWorld 2 [demoFirst, demoSecond] [ascii "r"])
          = some ret ∧ ret.val = [] ∧ ret.err = some (GoError.other 0) ∧
        bashCommands ret.trace = []) :=
  ⟨⟨rfl, rfl,
    (Interactive_returns_the_error asciiOnly scripted [ascii "wip"] 1 2
      (demoWorld 1 [demoFirst] [ascii "r"]) (demoWorld 0 [] []) rfl (by decide)).1
      [] (GoError.other 1) (demoWorld 0 [] []) rfl⟩,
   ⟨rfl, rfl, rfl,
    (Interactive_returns_the_error asciiOnly scripted [ascii "wip"] 1 2
      (demoWorld 2 [demoFirst] [ascii "r"]) (demoWorld 1 [] []) rfl (by decide)).2.1
      (ascii "+fix wip") [] (GoError.other 2) (demoWorld 0 [] []) (demoWorld 0 [] []) rfl rfl⟩,
   ⟨rfl, rfl, rfl, rfl,
    (Interactive_returns_the_error asciiOnly scripted [ascii "wip"] 1 2
      (demoWorld 2 [demoFirst, demoSecond] [ascii "r"]) (demoWorld 1 [demoSecond] [])
      rfl (by decide)).2.2
      (ascii "+fix wip") demoSecond [] (GoError.other 0) (demoWorld 0 [demoSecond] [])
      (demoWorld 0 [] []) (demoWorld 0 [] []) rfl rfl rfl⟩⟩

/-- C6 on the key line ` sk-123 ` and the prompt line ` use emojis`. -/
theorem Auth_saves_trimmed_key_and_prompt_witness :
    (scripted.OpenURL (ascii "https://platform.openai.com/api-keys")
        (authWorld [ascii " sk-123 \n", ascii " use emojis\n"])
      = (none, authWorld [ascii " sk-123 \n", ascii " use emojis\n"]) ∧
     scripted.ReadString (authWorld [ascii " sk-123 \n", ascii " use emojis\n"])
      = ((ascii " sk-123 \n", none), authWorld [ascii " use emojis\n"]) ∧
     scripted.ReadString (authWorld [ascii " use emojis\n"])
      = ((ascii " use emojis\n", none), authWorld []) ∧
     scripted.UserCurrent (authWorld []) = ((ascii "/home/dev", none), authWorld [])) ∧
    (∃ cfg : FileConfig,
      savedConfigs (Auth asciiOnly demoModels scripted
          (authWorld [ascii " sk-123 \n", ascii " use emojis\n"])).trace
        = [(ascii "/home/dev" ++ demoModels.CONFIG_FOLDER ++ demoModels.FILENAME, cfg)] ∧
      (Auth asciiOnly demoModels scripted
          (authWorld [ascii " sk-123 \n", ascii " use emojis\n"])).world
        = scripted.SaveConfigFile
            (ascii "/home/dev" ++ demoModels.CONFIG_FOLDER ++ demoModels.FILENAME) cfg
            (scripted.Mkdir (ascii "/home/dev" ++ demoModels.CONFIG_FOLDER) (authWorld [])) ∧
      (Auth asciiOnly demoModels scripted
          (authWorld [ascii " sk-123 \n", ascii " use emojis\n"])).err = none ∧
      (Auth asciiOnly demoModels scripted
          (authWorld [ascii " sk-123 \n", ascii " use emojis\n"])).val = ascii "done" ∧
      cfg.Prompt.Custom
        = (if TrimSpace asciiOnly (ascii " use emojis\n") = [] then demoModels.DEFAULT_PROMPT
           else TrimSpace asciiOnly (ascii " use emojis\n") ++ ascii ", "
             ++ demoModels.DEFAULT_PROMPT) ∧
      (∃ t, cfg.Prompt.Custom = t ++ demoModels.DEFAULT_PROMPT) ∧
      (demoModels.DEFAULT_PROMPT ≠ [] → cfg.Prompt.Custom ≠ []) ∧
      cfg.ApiKey.Key = TrimSpace asciiOnly (ascii " sk-123 \n") ∧
      ((∀ c ∈ ascii " sk-123 \n", c < 128) → cfg.ApiKey.Key
        = (((ascii " sk-123 \n").dropWhile asciiSpace).reverse.dropWhile asciiSpace).reverse)) ∧
    TrimSpace asciiOnly (ascii " sk-123 \n") = ascii "sk-123" ∧
    TrimSpace asciiOnly (ascii " use emojis\n") ++ ascii ", " ++ demoModels.DEFAULT_PROMPT
      = ascii "use emojis, write a commit message" :=
  ⟨⟨rfl, rfl, rfl, rfl⟩,
   Auth_saves_trimmed_key_and_prompt asciiOnly demoModels scripted
     (authWorld [ascii " sk-123 \n", ascii " use emojis\n"])
     (authWorld [ascii " sk-123 \n", ascii " use emojis\n"])
     (authWorld [ascii " use emojis\n"]) (authWorld []) (authWorld [])
     (ascii " sk-123 \n") (ascii " use emojis\n") (ascii "/home/dev") rfl rfl rfl rfl,
   by decide, by decide⟩

/-- C9 on a response of two commands, run directly and through `Interactive` on the
answer `Y`: the result is the output of the second command. -/
theorem executeCommand_returns_last_output_witness :
    ((∀ j, j < (Split asciiOnly demoFirst sepAnd).length →
        (outputAt scripted (Split asciiOnly demoFirst sepAnd) (demoWorld 0 [] []) j).2 = none) ∧
      (executeCommand asciiOnly scripted demoFirst (demoWorld 0 [] [])).val
        = (outputAt scripted (Split asciiOnly demoFirst sepAnd) (demoWorld 0 [] [])
            ((Split asciiOnly demoFirst sepAnd).length - 1)).1 ∧
      (outputAt scripted (Split asciiOnly demoFirst sepAnd) (demoWorld 0 [] [])
            ((Split asciiOnly demoFirst sepAnd).length - 1)).1 = ascii "git commit -m wip\n") ∧
    (afterRetries asciiOnly scripted [ascii "wip"] 0 (demoWorld 1 [demoFirst] [ascii "Y"])
        = some (demoWorld 1 [demoFirst] [ascii "Y"]) ∧
      scripted.InteractivePrompt [ascii "wip"] (demoWorld 1 [demoFirst] [ascii "Y"])
        = ((ascii "+fix wip", none), demoWorld 0 [demoFirst] [ascii "Y"]) ∧
      scripted.GetResponse (ascii "+fix wip") (demoWorld 0 [demoFirst] [ascii "Y"])
        = ((demoFirst, none), demoWorld 0 [] [ascii "Y"]) ∧
      scripted.Scan (demoWorld 0 [] [ascii "Y"]) = ((ascii "Y", none), demoWorld 0 [] []) ∧
      ToLower asciiOnly (ascii "Y") = ascii "y" ∧
      ∃ ret, Interactive asciiOnly scripted 1 [ascii "wip"] (demoWorld 1 [demoFirst] [ascii "Y"])
          = some ret ∧ ret.err = none ∧
        ret.val = (outputAt scripted (Split asciiOnly demoFirst sepAnd) (demoWorld 0 [] [])
            ((Split asciiOnly demoFirst sepAnd).length - 1)).1) :=
  ⟨⟨by decide,
    ((executeCommand_returns_last_output asciiOnly scripted demoFirst).1 (demoWorld 0 [] [])
      (by decide)).1,
    by decide⟩,
   ⟨rfl, rfl, rfl, rfl, by decide,
    (executeCommand_returns_last_output asciiOnly scripted demoFirst).2 [ascii "wip"] 0 1
      (demoWorld 1 [demoFirst] [ascii "Y"]) (demoWorld 1 [demoFirst] [ascii "Y"])
      (demoWorld 0 [demoFirst] [ascii "Y"]) (demoWorld 0 [] [ascii "Y"]) (demoWorld 0 [] [])
      (ascii "+fix wip") (ascii "Y") rfl rfl rfl rfl (by decide) (by decide) (by decide)⟩⟩

/-- C8 on the answers `r` then `y`: the text shown last is that of the second response,
and its two lines are the two commands run. -/
theorem shown_commands_are_the_segments_witness :
    (afterRetries asciiOnly scripted [ascii "wip"] 1
        (demoWorld 2 [demoFirst, demoSecond] [ascii "r", ascii "y"])
      = some (demoWorld 1 [demoSecond] [ascii "y"]) ∧
     scripted.InteractivePrompt [ascii "wip"] (demoWorld 1 [demoSecond] [ascii "y"])
      = ((ascii "+fix wip", none), demoWorld 0 [demoSecond] [ascii "y"]) ∧
     scripted.GetResponse (ascii "+fix wip") (demoWorld 0 [demoSecond] [ascii "y"])
      = ((demoSecond, none), demoWorld 0 [] [ascii "y"]) ∧
     scripted.Scan (demoWorld 0 [] [ascii "y"]) = ((ascii "y", none), demoWorld 0 [] []) ∧
     ToLower asciiOnly (ascii "y") = ascii "y" ∧ 1 < 2 ∧
     (∀ j, j < (Split asciiOnly demoSecond sepAnd).length →
        (outputAt scripted (Split asciiOnly demoSecond sepAnd) (demoWorld 0 [] []) j).2
          = none)) ∧
    (∃ (ret : Ret Script Nat) (pre : List Event),
      Interactive asciiOnly scripted 2 [ascii "wip"]
        (demoWorld 2 [demoFirst, demoSecond] [ascii "r", ascii "y"]) = some ret ∧
      bashCommands pre = [] ∧
      ret.trace = pre ++ [Event.stdout (ascii "Here are the commands to execute: \n\n"
            ++ (Green ++ Join (Split asciiOnly demoSecond sepAnd) newline ++ Reset)
            ++ ascii "\n\nDo you want to apply it? [y/n/r]: "),
          Event.scan, Event.stdout newline]
        ++ (executeCommand asciiOnly scripted demoSecond (demoWorld 0 [] [])).trace ∧
      bashCommands ret.trace
        = bashCommands (executeCommand asciiOnly scripted demoSecond (demoWorld 0 [] [])).trace ∧
      (∃ n, 0 < n ∧ bashCommands ret.trace = (Split asciiOnly demoSecond sepAnd).take n) ∧
      ((∀ j, j < (Split asciiOnly demoSecond sepAnd).length →
          (outputAt scripted (Split asciiOnly demoSecond sepAnd) (demoWorld 0 [] []) j).2
            = none) →
        bashCommands ret.trace = Split asciiOnly demoSecond sepAnd ∧
        ret.trace = pre ++ [Event.stdout (ascii "Here are the commands to execute: \n\n"
              ++ (Green ++ Join (bashCommands ret.trace) newline ++ Reset)
              ++ ascii "\n\nDo you want to apply it? [y/n/r]: "),
            Event.scan, Event.stdout newline]
          ++ (executeCommand asciiOnly scripted demoSecond (demoWorld 0 [] [])).trace)) ∧
    Join (Split asciiOnly demoSecond sepAnd) newline = ascii "git add -A\ngit commit -m fix" :=
  ⟨⟨rfl, rfl, rfl, rfl, by decide, by decide, by decide⟩,
   (shown_commands_are_the_segments asciiOnly scripted).2.2.2 [ascii "wip"] 1 2
     (demoWorld 2 [demoFirst, demoSecond] [ascii "r", ascii "y"])
     (demoWorld 1 [demoSecond] [ascii "y"]) (demoWorld 0 [demoSecond] [ascii "y"])
     (demoWorld 0 [] [ascii "y"]) (demoWorld 0 [] [])
     (ascii "+fix wip") demoSecond (ascii "y") rfl rfl rfl rfl (by decide) (by decide),
   by decide⟩

/-! ## The string functions on examples -/

theorem Split_demoFirst :
    Split asciiOnly demoFirst sepAnd = [ascii "git add .", ascii "git commit -m wip"] := by
  decide

theorem Split_adjacent_separators :
    Split asciiOnly (ascii "a && && b") sepAnd = [ascii "a", ascii "&& b"] ∧
    Split asciiOnly (ascii "a &&  && b") sepAnd = [ascii "a", ascii "", ascii "b"] ∧
    Split asciiOnly (ascii " && ") sepAnd = [ascii "", ascii ""] := by
  decide

theorem Index_examples :
    Index (ascii "a && b") sepAnd = 1 ∧ Index (ascii "a & b") sepAnd = -1 ∧
    Index (ascii "") sepAnd = -1 := by
  decide

end CommitGPT
